import Mathlib

set_option linter.unusedVariables false

/-!
Verification of the sspo-labs file-transfer system.

Shallow embedding of the Python sources:
  * src/lab04/udp_handler.py    — packet codec (create_packet / parse_packet)
  * src/lab04/sliding_window.py — SlidingWindow (send side) and ReceiveWindow
  * src/lab04/client.py         — resume negotiation, fast-send retransmit loop,
                                  TCP download receive loop
  * src/lab02/server.py         — TCP greeting, download send loop

Bytes are modelled as natural numbers (< 256 on the valid domain); byte
strings as `List Nat`.  Wall-clock times are modelled as natural ticks.
-/

namespace FileTransfer

/-! ### Packet codec — src/lab04/udp_handler.py -/

/-- MAGIC marker of the datagram header (`MAGIC = 0xDEAD`). -/
def MAGIC : Nat := 0xDEAD

/-- Size in bytes of the packed header `'!HHIIBH'` (2+2+4+4+1+2). -/
def PACKET_HEADER_SIZE : Nat := 15

/-- Retransmission ceiling (`MAX_RESENDS = 5`). -/
def MAX_RESENDS : Nat := 5

/-- Stream-transport chunk size (`BUFFER_SIZE = 8192` in app_config.py). -/
def BUFFER_SIZE : Nat := 8192

/-- Big-endian encoding of an unsigned 16-bit field (`struct.pack` with `H`).
`struct.pack` rejects out-of-range values; all call sites pass values below
2^16, on which the `% 256` reductions are the identity. -/
def pack2 (n : Nat) : List Nat := [n / 256 % 256, n % 256]

/-- Big-endian encoding of an unsigned 32-bit field (`struct.pack` with `I`). -/
def pack4 (n : Nat) : List Nat :=
  [n / 16777216 % 256, n / 65536 % 256, n / 256 % 256, n % 256]

/-- Big-endian decoding of two bytes (`struct.unpack` field `H`). -/
def un2 (a b : Nat) : Nat := a * 256 + b

/-- Big-endian decoding of four bytes (`struct.unpack` field `I`). -/
def un4 (a b c d : Nat) : Nat := ((a * 256 + b) * 256 + c) * 256 + d

/-- `create_packet(request_id, packet_id, total_packets, flags, data)`:
the packed `'!HHIIBH'` header followed by the payload. -/
def create_packet (request_id packet_id total_packets flags : Nat)
    (data : List Nat) : List Nat :=
  pack2 MAGIC ++ pack2 request_id ++ pack4 packet_id ++ pack4 total_packets ++
    [flags % 256] ++ pack2 data.length ++ data

/-- `parse_packet(packet)`: `None` when the datagram is shorter than
`PACKET_HEADER_SIZE` or the magic mismatches; otherwise the tuple
`(request_id, packet_id, total_packets, flags, data)` where
`data = packet[15 : 15 + data_size]`, replaced by the whole tail
`packet[15:]` when its length disagrees with the declared size. -/
def parse_packet (packet : List Nat) :
    Option (Nat × Nat × Nat × Nat × List Nat) :=
  match packet with
  | m1 :: m0 :: r1 :: r0 :: p3 :: p2 :: p1 :: p0 ::
      t3 :: t2 :: t1 :: t0 :: fl :: s1 :: s0 :: rest =>
    if un2 m1 m0 ≠ MAGIC then none
    else
      let data_size := un2 s1 s0
      let data := rest.take data_size
      let data := if data.length ≠ data_size then rest else data
      some (un2 r1 r0, un4 p3 p2 p1 p0, un4 t3 t2 t1 t0, fl, data)
  | _ => none

theorem pack2_fst (n : Nat) (h : n < 65536) : n / 256 % 256 = n / 256 := by
  have : n / 256 < 256 := by omega
  omega

theorem un2_pack2 (n : Nat) (h : n < 65536) :
    un2 (n / 256 % 256) (n % 256) = n := by
  unfold un2
  omega

theorem un4_pack4 (n : Nat) (h : n < 4294967296) :
    un4 (n / 16777216 % 256) (n / 65536 % 256) (n / 256 % 256) (n % 256) = n := by
  unfold un4
  omega

/-- c3: decode inverts encode.  For header fields within their ranges and a
payload of any representable length (including 0, 1 and 65535),
`parse_packet (create_packet …)` returns the original request id, sequence
number, total count, flags and payload bytes unchanged. -/
theorem parse_create_roundtrip (request_id packet_id total_packets flags : Nat)
    (data : List Nat)
    (hr : request_id < 65536) (hp : packet_id < 4294967296)
    (ht : total_packets < 4294967296) (hf : flags < 256)
    (hd : data.length ≤ 65535) :
    parse_packet (create_packet request_id packet_id total_packets flags data) =
      some (request_id, packet_id, total_packets, flags, data) := by
  simp only [create_packet, pack2, pack4, List.cons_append, List.nil_append,
    List.singleton_append, parse_packet]
  rw [if_neg (by decide)]
  rw [show un2 (data.length / 256 % 256) (data.length % 256) = data.length from
    un2_pack2 _ (by omega)]
  rw [List.take_length, if_neg (by simp)]
  rw [show un2 (request_id / 256 % 256) (request_id % 256) = request_id from
    un2_pack2 _ hr]
  rw [un4_pack4 _ hp, un4_pack4 _ ht]
  simp [Nat.mod_eq_of_lt hf]

/-- Witness for c3 at a concrete packet. -/
theorem parse_create_roundtrip_witness :
    parse_packet (create_packet 7 9 2 1 [42]) = some (7, 9, 2, 1, [42]) :=
  parse_create_roundtrip 7 9 2 1 [42] (by decide) (by decide) (by decide)
    (by decide) (by decide)

/-- Payload component of a parsed packet. -/
def parsedData (r : Nat × Nat × Nat × Nat × List Nat) : List Nat := r.2.2.2.2

/-- c7 counterexample: a well-formed 15-byte header declaring payload length
0 followed by one trailing byte.  The declared length (0) disagrees with the
actual trailing byte count (1); `parse_packet` succeeds, but the payload it
returns is `[]`, not the available trailing byte `[7]` as the claim states. -/
theorem parse_short_declared_counterexample :
    parse_packet [222, 173, 0, 1, 0, 0, 0, 0, 0, 0, 0, 1, 1, 0, 0, 7] =
        some (1, 0, 1, 1, ([] : List Nat)) ∧
      (0 : Nat) ≠ [7].length ∧
      parse_packet [222, 173, 0, 1, 0, 0, 0, 0, 0, 0, 0, 1, 1, 0, 0, 7] ≠
        some (1, 0, 1, 1, [7]) := by
  refine ⟨by decide, by decide, by decide⟩

/-- c7 (amended): a datagram shorter than the header size yields `none`
(`Malformed`); a long-enough datagram whose magic mismatches yields `none`
(`BadMagic`); a long-enough datagram with the correct magic is never dropped:
it parses successfully and its payload is the trailing bytes truncated to the
declared length — in particular all the available trailing bytes whenever the
declared length exceeds what is available, and only the declared-length
prefix when more trailing bytes are available than declared. -/
theorem parse_packet_error_handling (packet : List Nat) :
    (packet.length < PACKET_HEADER_SIZE → parse_packet packet = none) ∧
    (∀ m1 m0 r1 r0 p3 p2 p1 p0 t3 t2 t1 t0 fl s1 s0 rest,
      packet = m1 :: m0 :: r1 :: r0 :: p3 :: p2 :: p1 :: p0 ::
          t3 :: t2 :: t1 :: t0 :: fl :: s1 :: s0 :: rest →
      (un2 m1 m0 ≠ MAGIC → parse_packet packet = none) ∧
      (un2 m1 m0 = MAGIC →
        parse_packet packet =
          some (un2 r1 r0, un4 p3 p2 p1 p0, un4 t3 t2 t1 t0, fl,
            rest.take (un2 s1 s0)))) := by
  constructor
  · intro hlen
    match packet, hlen with
    | [], _ => rfl
    | [_], _ => rfl
    | [_, _], _ => rfl
    | [_, _, _], _ => rfl
    | [_, _, _, _], _ => rfl
    | [_, _, _, _, _], _ => rfl
    | [_, _, _, _, _, _], _ => rfl
    | [_, _, _, _, _, _, _], _ => rfl
    | [_, _, _, _, _, _, _, _], _ => rfl
    | [_, _, _, _, _, _, _, _, _], _ => rfl
    | [_, _, _, _, _, _, _, _, _, _], _ => rfl
    | [_, _, _, _, _, _, _, _, _, _, _], _ => rfl
    | [_, _, _, _, _, _, _, _, _, _, _, _], _ => rfl
    | [_, _, _, _, _, _, _, _, _, _, _, _, _], _ => rfl
    | [_, _, _, _, _, _, _, _, _, _, _, _, _, _], _ => rfl
    | a :: b :: c :: d :: e :: f :: g :: h :: i :: j :: k :: l :: m :: n :: o
        :: rest, hlen => simp [PACKET_HEADER_SIZE] at hlen; omega
  · intro m1 m0 r1 r0 p3 p2 p1 p0 t3 t2 t1 t0 fl s1 s0 rest hpkt
    subst hpkt
    constructor
    · intro hmag
      simp [parse_packet, hmag]
    · intro hmag
      simp only [parse_packet, hmag, ne_eq, not_true_eq_false, if_false]
      by_cases hlen : (rest.take (un2 s1 s0)).length = un2 s1 s0
      · simp [hlen]
      · have hshort : rest.length < un2 s1 s0 := by
          rcases Nat.lt_or_ge rest.length (un2 s1 s0) with h | h
          · exact h
          · exact absurd (by rw [List.length_take]; omega) hlen
        have : rest.take (un2 s1 s0) = rest :=
          List.take_of_length_le (by omega)
        simp [hlen, this]

/-- Witness for c7 at concrete datagrams: a 3-byte datagram is Malformed, a
wrong-magic datagram is dropped, and a correct-magic datagram with declared
length 2 but 1 trailing byte parses to the single available byte. -/
theorem parse_packet_error_handling_witness :
    parse_packet [222, 173, 9] = none ∧
    parse_packet [0, 0, 0, 1, 0, 0, 0, 0, 0, 0, 0, 1, 1, 0, 2, 7] = none ∧
    parse_packet [222, 173, 0, 1, 0, 0, 0, 0, 0, 0, 0, 1, 1, 0, 2, 7] =
      some (1, 0, 1, 1, [7]) := by
  refine ⟨(parse_packet_error_handling [222, 173, 9]).1 (by decide),
    ((parse_packet_error_handling _).2 0 0 0 1 0 0 0 0 0 0 0 1 1 0 2 [7]
      rfl).1 (by decide), ?_⟩
  have h := ((parse_packet_error_handling _).2 222 173 0 1 0 0 0 0 0 0 0 1 1 0 2
    [7] rfl).2 (by decide)
  rw [h]
  decide

/-- c10: `parse_packet` is total — on every byte string it returns either a
5-tuple or `None` — and it returns a tuple exactly when the input is at least
`PACKET_HEADER_SIZE` bytes long and its first 16-bit header field decodes to
the magic `0xDEAD`. -/
theorem parse_packet_total (packet : List Nat) :
    (parse_packet packet = none ∨
      ∃ request_id packet_id total_packets flags data,
        parse_packet packet =
          some (request_id, packet_id, total_packets, flags, data)) ∧
    ((parse_packet packet).isSome ↔
      PACKET_HEADER_SIZE ≤ packet.length ∧
        un2 (packet.getD 0 0) (packet.getD 1 0) = MAGIC) := by
  constructor
  · cases h : parse_packet packet with
    | none => exact Or.inl rfl
    | some v =>
      exact Or.inr ⟨v.1, v.2.1, v.2.2.1, v.2.2.2.1, v.2.2.2.2, by simp [h]⟩
  · match packet with
    | m1 :: m0 :: r1 :: r0 :: p3 :: p2 :: p1 :: p0 ::
        t3 :: t2 :: t1 :: t0 :: fl :: s1 :: s0 :: rest =>
      constructor
      · intro hsome
        refine ⟨by simp [PACKET_HEADER_SIZE], ?_⟩
        simp only [List.getD_cons_zero, List.getD_cons_succ]
        by_contra hmag
        simp [parse_packet, hmag] at hsome
      · intro h
        have hmag : un2 m1 m0 = MAGIC := by
          simpa [List.getD_cons_zero, List.getD_cons_succ] using h.2
        simp [parse_packet, hmag]
    | [] => simp [parse_packet, PACKET_HEADER_SIZE]
    | [a] => simp [parse_packet, PACKET_HEADER_SIZE]
    | [a, b] => simp [parse_packet, PACKET_HEADER_SIZE]
    | [a, b, c] => simp [parse_packet, PACKET_HEADER_SIZE]
    | [a, b, c, d] => simp [parse_packet, PACKET_HEADER_SIZE]
    | [a, b, c, d, e] => simp [parse_packet, PACKET_HEADER_SIZE]
    | [a, b, c, d, e, f] => simp [parse_packet, PACKET_HEADER_SIZE]
    | [a, b, c, d, e, f, g] => simp [parse_packet, PACKET_HEADER_SIZE]
    | [a, b, c, d, e, f, g, h] => simp [parse_packet, PACKET_HEADER_SIZE]
    | [a, b, c, d, e, f, g, h, i] => simp [parse_packet, PACKET_HEADER_SIZE]
    | [a, b, c, d, e, f, g, h, i, j] =>
      simp [parse_packet, PACKET_HEADER_SIZE]
    | [a, b, c, d, e, f, g, h, i, j, k] =>
      simp [parse_packet, PACKET_HEADER_SIZE]
    | [a, b, c, d, e, f, g, h, i, j, k, l] =>
      simp [parse_packet, PACKET_HEADER_SIZE]
    | [a, b, c, d, e, f, g, h, i, j, k, l, m] =>
      simp [parse_packet, PACKET_HEADER_SIZE]
    | [a, b, c, d, e, f, g, h, i, j, k, l, m, n] =>
      simp [parse_packet, PACKET_HEADER_SIZE]

/-- Witness for c10 at a concrete valid packet: the iff's right-to-left
direction produces a parse. -/
theorem parse_packet_total_witness :
    (parse_packet [222, 173, 0, 1, 0, 0, 0, 0, 0, 0, 0, 1, 1, 0, 0]).isSome ∧
    (parse_packet [1, 2]).isSome = false := by
  constructor
  · exact (parse_packet_total _).2.mpr (by decide)
  · have h := (parse_packet_total [1, 2]).2
    simp only [show ¬(PACKET_HEADER_SIZE ≤ ([1, 2] : List Nat).length ∧
        un2 (([1, 2] : List Nat).getD 0 0) (([1, 2] : List Nat).getD 1 0) =
          MAGIC) from by decide, iff_false] at h
    simpa using h

/-! ### Association-list primitives modelling Python dict operations.
Python dict keys are unique; reachable windows keep their key lists Nodup. -/

/-- Lookup by key (`key in d` / `d[key]`). -/
def alistLookup {α : Type} : List (Nat × α) → Nat → Option α
  | [], _ => none
  | (k, v) :: rest, key => if k = key then some v else alistLookup rest key

/-- Removal of the (first) binding of a key (`d.pop(key)` / `del d[key]`). -/
def alistErase {α : Type} : List (Nat × α) → Nat → List (Nat × α)
  | [], _ => []
  | (k, v) :: rest, key =>
    if k = key then rest else (k, v) :: alistErase rest key

theorem alistLookup_mem_keys {α : Type} (l : List (Nat × α)) (k : Nat) (v : α)
    (h : alistLookup l k = some v) : k ∈ l.map Prod.fst := by
  induction l with
  | nil => simp [alistLookup] at h
  | cons hd tl ih =>
    obtain ⟨k1, v1⟩ := hd
    by_cases hk : k1 = k
    · simp [hk]
    · simp only [alistLookup, if_neg hk] at h
      simp [ih h]

theorem alistLookup_isSome_of_mem {α : Type} (l : List (Nat × α)) (k : Nat)
    (h : k ∈ l.map Prod.fst) : (alistLookup l k).isSome := by
  induction l with
  | nil => simp at h
  | cons hd tl ih =>
    obtain ⟨k1, v1⟩ := hd
    by_cases hk : k1 = k
    · simp [alistLookup, hk]
    · simp only [List.map_cons, List.mem_cons] at h
      rcases h with h | h
      · exact absurd h.symm hk
      · simp [alistLookup, hk, ih h]

theorem alistErase_sublist {α : Type} (l : List (Nat × α)) (k : Nat) :
    (alistErase l k).Sublist l := by
  induction l with
  | nil => simp [alistErase]
  | cons hd tl ih =>
    obtain ⟨k1, v1⟩ := hd
    by_cases hk : k1 = k
    · simp only [alistErase, if_pos hk]
      exact List.sublist_cons_self _ _
    · simp only [alistErase, if_neg hk]
      exact ih.cons₂ (k1, v1)

theorem alistErase_length {α : Type} (l : List (Nat × α)) (k : Nat) (v : α)
    (h : alistLookup l k = some v) :
    (alistErase l k).length + 1 = l.length := by
  induction l with
  | nil => simp [alistLookup] at h
  | cons hd tl ih =>
    obtain ⟨k1, v1⟩ := hd
    by_cases hk : k1 = k
    · simp [alistErase, hk]
    · simp only [alistLookup, if_neg hk] at h
      simp [alistErase, hk, ih h]

theorem alistErase_keys_nodup {α : Type} (l : List (Nat × α)) (k : Nat)
    (h : (l.map Prod.fst).Nodup) : ((alistErase l k).map Prod.fst).Nodup :=
  ((alistErase_sublist l k).map Prod.fst).nodup h

theorem mem_keys_alistErase {α : Type} (l : List (Nat × α)) (k j : Nat)
    (hnd : (l.map Prod.fst).Nodup) :
    (j ∈ (alistErase l k).map Prod.fst ↔ j ∈ l.map Prod.fst ∧ j ≠ k) := by
  induction l with
  | nil => simp [alistErase]
  | cons hd tl ih =>
    obtain ⟨k1, v1⟩ := hd
    simp only [List.map_cons, List.nodup_cons] at hnd
    by_cases hk : k1 = k
    · subst hk
      simp only [alistErase, if_pos rfl, List.map_cons, List.mem_cons]
      constructor
      · intro hj
        exact ⟨Or.inr hj, fun hjk => hnd.1 (hjk ▸ hj)⟩
      · rintro ⟨hj | hj, hne⟩
        · exact absurd hj hne
        · exact hj
    · simp only [alistErase, if_neg hk, List.map_cons, List.mem_cons,
        ih hnd.2]
      constructor
      · rintro (h | ⟨h1, h2⟩)
        · exact ⟨Or.inl h, by rintro rfl; exact hk h.symm⟩
        · exact ⟨Or.inr h1, h2⟩
      · rintro ⟨h | h, hne⟩
        · exact Or.inl h
        · exact Or.inr ⟨h, hne⟩

/-! ### ReceiveWindow — src/lab04/sliding_window.py -/

/-- State of `ReceiveWindow`: configured window size, next expected sequence
number, out-of-order buffer (`OrderedDict`, kept in insertion order) and the
set of already-delivered sequence numbers. -/
structure ReceiveWindow where
  window_size : Nat
  expected_seq : Nat
  buffer : List (Nat × List Nat)
  received_packets : List Nat
deriving DecidableEq, Repr

namespace ReceiveWindow

/-- `ReceiveWindow.__init__`: expected 0, empty buffer, empty received set. -/
def init (window_size : Nat) : ReceiveWindow :=
  { window_size := window_size, expected_seq := 0, buffer := [],
    received_packets := [] }

/-- One pass of the Python loop `while self.expected_seq in self.buffer:`.
Each iteration pops the expected key, records it as received and appends its
payload.  The fuel argument — the current buffer size — bounds the number of
iterations; the loop pops a buffered entry per iteration so the buffer length
is an upper bound, and when the fuel runs out the buffer is empty and the
loop condition is false anyway. -/
def drainFuel : Nat → Nat → List (Nat × List Nat) → List Nat →
    List (Nat × List Nat) → Nat × List (Nat × List Nat) × List Nat ×
      List (Nat × List Nat)
  | 0, e, buf, rec, acc => (e, buf, rec, acc)
  | fuel + 1, e, buf, rec, acc =>
    match alistLookup buf e with
    | some d => drainFuel fuel (e + 1) (alistErase buf e) (e :: rec)
        (acc ++ [(e, d)])
    | none => (e, buf, rec, acc)

/-- Result value of `ReceiveWindow.add_packet`: `(False, None)`,
`(True, data)` for a single payload, or `(True, result_data)` for several. -/
inductive PacketResult where
  | nothing
  | single (d : List Nat)
  | multiple (ds : List (List Nat))
deriving DecidableEq, Repr

/-- `ReceiveWindow.add_packet(seq_num, total_packets, data)` together with a
ghost fourth component: the `(sequence number, payload)` pairs handed to the
consumer by this call (the payloads are exactly those of the returned
`PacketResult`; the sequence numbers are the values of the expected counter
they were delivered at).  `total_packets` is unused, as in the source. -/
def addPacketImpl (st : ReceiveWindow) (seq_num total_packets : Nat)
    (data : List Nat) :
    ReceiveWindow × Bool × PacketResult × List (Nat × List Nat) :=
  if seq_num ∈ st.received_packets then (st, false, .nothing, [])
  else if seq_num = st.expected_seq then
    let r := drainFuel st.buffer.length (st.expected_seq + 1) st.buffer
      (seq_num :: st.received_packets) []
    let result := if r.2.2.2 ≠ [] then
        PacketResult.multiple (data :: r.2.2.2.map Prod.snd)
      else PacketResult.single data
    ({ st with expected_seq := r.1, buffer := r.2.1, received_packets := r.2.2.1 },
      true, result, (seq_num, data) :: r.2.2.2)
  else if st.expected_seq < seq_num ∧
      seq_num < st.expected_seq + st.window_size then
    if alistLookup st.buffer seq_num = none then
      ({ st with buffer := st.buffer ++ [(seq_num, data)] }, false, .nothing,
        [])
    else (st, false, .nothing, [])
  else (st, false, .nothing, [])

/-- `ReceiveWindow.add_packet` as the caller sees it: the new state and the
returned pair `(ready, data)`. -/
def add_packet (st : ReceiveWindow) (seq_num total_packets : Nat)
    (data : List Nat) : ReceiveWindow × Bool × PacketResult :=
  let r := addPacketImpl st seq_num total_packets data
  (r.1, r.2.1, r.2.2.1)

/-- Run of a sequence of `add_packet` calls from a given state, returning the
final state and the concatenated trace of delivered sequence numbers. -/
def runFull (st : ReceiveWindow) :
    List (Nat × Nat × List Nat) → ReceiveWindow × List Nat
  | [] => (st, [])
  | (s, t, d) :: ops =>
    let r := addPacketImpl st s t d
    let rest := runFull r.1 ops
    (rest.1, r.2.2.2.map Prod.fst ++ rest.2)

/-- Characterisation of the drain loop: the expected counter advances to the
first gap, the popped keys are exactly the contiguous range it crossed, those
keys move from the buffer into the received set, and the surviving buffer
keys are the original ones outside the crossed range. -/
theorem drainFuel_spec (fuel : Nat) :
    ∀ e buf rec acc, buf.length ≤ fuel → (buf.map Prod.fst).Nodup →
    e ≤ (drainFuel fuel e buf rec acc).1 ∧
    alistLookup (drainFuel fuel e buf rec acc).2.1
      (drainFuel fuel e buf rec acc).1 = none ∧
    (drainFuel fuel e buf rec acc).2.2.2.map Prod.fst =
      acc.map Prod.fst ++
        List.range' e ((drainFuel fuel e buf rec acc).1 - e) ∧
    (∀ k, k ∈ (drainFuel fuel e buf rec acc).2.2.1 ↔
      k ∈ rec ∨ (e ≤ k ∧ k < (drainFuel fuel e buf rec acc).1)) ∧
    ((drainFuel fuel e buf rec acc).2.1.map Prod.fst).Nodup ∧
    (∀ k, k ∈ (drainFuel fuel e buf rec acc).2.1.map Prod.fst →
      k ∈ buf.map Prod.fst ∧
        ¬(e ≤ k ∧ k < (drainFuel fuel e buf rec acc).1)) := by
  induction fuel with
  | zero =>
    intro e buf rec acc hf hnd
    have hbuf : buf = [] := List.eq_nil_of_length_eq_zero (by omega)
    subst hbuf
    refine ⟨le_refl _, rfl, by simp [drainFuel], ?_, by simp [drainFuel], ?_⟩
    · intro k
      simp only [drainFuel]
      constructor
      · exact Or.inl
      · rintro (h | h)
        · exact h
        · omega
    · intro k hk
      simp [drainFuel] at hk
  | succ fuel ih =>
    intro e buf rec acc hf hnd
    cases hlk : alistLookup buf e with
    | none =>
      simp only [drainFuel, hlk]
      refine ⟨le_refl _, by simp [hlk], by simp, ?_, hnd, ?_⟩
      · intro k
        constructor
        · exact Or.inl
        · rintro (h | h)
          · exact h
          · omega
      · intro k hk
        exact ⟨hk, by omega⟩
    | some d =>
      have herase : (alistErase buf e).length + 1 = buf.length :=
        alistErase_length buf e d hlk
      have hndE : ((alistErase buf e).map Prod.fst).Nodup :=
        alistErase_keys_nodup buf e hnd
      have spec := ih (e + 1) (alistErase buf e) (e :: rec) (acc ++ [(e, d)])
        (by omega) hndE
      obtain ⟨h1, h2, h3, h4, h5, h6⟩ := spec
      simp only [drainFuel, hlk]
      refine ⟨by omega, h2, ?_, ?_, h5, ?_⟩
      · rw [h3]
        have hsplit : (drainFuel fuel (e + 1) (alistErase buf e) (e :: rec)
            (acc ++ [(e, d)])).1 - e =
            ((drainFuel fuel (e + 1) (alistErase buf e) (e :: rec)
              (acc ++ [(e, d)])).1 - (e + 1)) + 1 := by omega
        rw [hsplit, List.range'_succ]
        simp
      · intro k
        rw [h4 k]
        simp only [List.mem_cons]
        constructor
        · rintro ((rfl | h) | h)
          · exact Or.inr ⟨le_refl _, by omega⟩
          · exact Or.inl h
          · exact Or.inr ⟨by omega, h.2⟩
        · rintro (h | h)
          · exact Or.inl (Or.inr h)
          · rcases Nat.eq_or_lt_of_le h.1 with rfl | hlt
            · exact Or.inl (Or.inl rfl)
            · exact Or.inr ⟨by omega, h.2⟩
      · intro k hk
        obtain ⟨hmem, hrange⟩ := h6 k hk
        obtain ⟨hmem', hne⟩ := (mem_keys_alistErase buf e k hnd).mp hmem
        exact ⟨hmem', by omega⟩

/-- Reachability invariant of a `ReceiveWindow`: the received set is exactly
the sequence numbers below the expected counter, the buffer keys are unique,
and every buffer key lies strictly between the expected counter and the
expected counter plus the window size. -/
def Inv (st : ReceiveWindow) : Prop :=
  (∀ k, k ∈ st.received_packets ↔ k < st.expected_seq) ∧
  (st.buffer.map Prod.fst).Nodup ∧
  (∀ k, k ∈ st.buffer.map Prod.fst →
    st.expected_seq < k ∧ k < st.expected_seq + st.window_size)

theorem inv_init (w : Nat) : Inv (init w) := by
  refine ⟨?_, ?_, ?_⟩ <;> simp [init]

/-- Drain step performed by a delivering `add_packet` call. -/
def drainResult (st : ReceiveWindow) :
    Nat × List (Nat × List Nat) × List Nat × List (Nat × List Nat) :=
  drainFuel st.buffer.length (st.expected_seq + 1) st.buffer
    (st.expected_seq :: st.received_packets) []

theorem addPacketImpl_dup (st : ReceiveWindow) (s t : Nat) (d : List Nat)
    (h : s ∈ st.received_packets) :
    st.addPacketImpl s t d = (st, false, .nothing, []) := by
  unfold addPacketImpl
  rw [if_pos h]

theorem addPacketImpl_deliver (st : ReceiveWindow) (t : Nat) (d : List Nat)
    (hdup : st.expected_seq ∉ st.received_packets) :
    st.addPacketImpl st.expected_seq t d =
      ({ st with expected_seq := (st.drainResult).1, buffer := (st.drainResult).2.1, received_packets := (st.drainResult).2.2.1 },
        true,
        (if (st.drainResult).2.2.2 ≠ [] then
          PacketResult.multiple (d :: (st.drainResult).2.2.2.map Prod.snd)
        else PacketResult.single d),
        (st.expected_seq, d) :: (st.drainResult).2.2.2) := by
  unfold addPacketImpl drainResult
  rw [if_neg hdup, if_pos rfl]

theorem addPacketImpl_buffered (st : ReceiveWindow) (s t : Nat) (d : List Nat)
    (hdup : s ∉ st.received_packets) (hexp : s ≠ st.expected_seq)
    (hwin : st.expected_seq < s ∧ s < st.expected_seq + st.window_size)
    (hlk : alistLookup st.buffer s = none) :
    st.addPacketImpl s t d =
      ({ st with buffer := st.buffer ++ [(s, d)] }, false, .nothing, []) := by
  unfold addPacketImpl
  rw [if_neg hdup, if_neg hexp, if_pos hwin, if_pos hlk]

theorem addPacketImpl_buffered_again (st : ReceiveWindow) (s t : Nat)
    (d : List Nat) (hdup : s ∉ st.received_packets)
    (hexp : s ≠ st.expected_seq)
    (hwin : st.expected_seq < s ∧ s < st.expected_seq + st.window_size)
    (hlk : alistLookup st.buffer s ≠ none) :
    st.addPacketImpl s t d = (st, false, .nothing, []) := by
  unfold addPacketImpl
  rw [if_neg hdup, if_neg hexp, if_pos hwin, if_neg hlk]

theorem addPacketImpl_drop (st : ReceiveWindow) (s t : Nat) (d : List Nat)
    (hdup : s ∉ st.received_packets) (hexp : s ≠ st.expected_seq)
    (hwin : ¬(st.expected_seq < s ∧ s < st.expected_seq + st.window_size)) :
    st.addPacketImpl s t d = (st, false, .nothing, []) := by
  unfold addPacketImpl
  rw [if_neg hdup, if_neg hexp, if_neg hwin]

/-- The ghost component of `addPacketImpl` is faithful: the payloads of the
returned `PacketResult` are exactly the payloads of the ghost
`(sequence number, payload)` list, in the same order. -/
theorem addPacketImpl_result_matches_ghost (st : ReceiveWindow) (s t : Nat)
    (d : List Nat) :
    (st.addPacketImpl s t d).2.2.1 =
      (match (st.addPacketImpl s t d).2.2.2 with
        | [] => PacketResult.nothing
        | (_, d0) :: rest =>
          if rest ≠ [] then PacketResult.multiple (d0 :: rest.map Prod.snd)
          else PacketResult.single d0) := by
  by_cases hdup : s ∈ st.received_packets
  · rw [addPacketImpl_dup st s t d hdup]
  · by_cases hexp : s = st.expected_seq
    · subst hexp
      rw [addPacketImpl_deliver st t d hdup]
    · by_cases hwin : st.expected_seq < s ∧
          s < st.expected_seq + st.window_size
      · by_cases hbuf : alistLookup st.buffer s = none
        · rw [addPacketImpl_buffered st s t d hdup hexp hwin hbuf]
        · rw [addPacketImpl_buffered_again st s t d hdup hexp hwin hbuf]
      · rw [addPacketImpl_drop st s t d hdup hexp hwin]

/-- A single `add_packet` call preserves the invariant, never decreases the
expected counter, keeps the window size, and delivers exactly the sequence
numbers the expected counter crosses. -/
theorem addPacketImpl_inv (st : ReceiveWindow) (s t : Nat) (d : List Nat)
    (h : Inv st) :
    Inv (st.addPacketImpl s t d).1 ∧
    (st.addPacketImpl s t d).1.window_size = st.window_size ∧
    st.expected_seq ≤ (st.addPacketImpl s t d).1.expected_seq ∧
    (st.addPacketImpl s t d).2.2.2.map Prod.fst =
      List.range' st.expected_seq
        ((st.addPacketImpl s t d).1.expected_seq - st.expected_seq) := by
  obtain ⟨hrec, hnd, hkeys⟩ := h
  by_cases hdup : s ∈ st.received_packets
  · rw [addPacketImpl_dup st s t d hdup]
    exact ⟨⟨hrec, hnd, hkeys⟩, rfl, le_refl _, by simp⟩
  · by_cases hexp : s = st.expected_seq
    · subst hexp
      rw [addPacketImpl_deliver st t d hdup]
      have spec := drainFuel_spec st.buffer.length (st.expected_seq + 1)
        st.buffer (st.expected_seq :: st.received_packets) [] (le_refl _) hnd
      rw [show drainFuel st.buffer.length (st.expected_seq + 1) st.buffer
        (st.expected_seq :: st.received_packets) [] = st.drainResult from rfl]
        at spec
      obtain ⟨h1, h2, h3, h4, h5, h6⟩ := spec
      refine ⟨⟨?_, h5, ?_⟩, rfl, by dsimp only; omega, ?_⟩
      · intro k
        dsimp only
        rw [h4 k]
        simp only [List.mem_cons, hrec k]
        omega
      · intro k hk
        have hk' : k ∈ List.map Prod.fst (st.drainResult).2.1 := hk
        obtain ⟨hmem, hrange⟩ := h6 k hk'
        have hbound := hkeys k hmem
        have hne : k ≠ (st.drainResult).1 := by
          rintro rfl
          rcases Option.isSome_iff_exists.mp
            (alistLookup_isSome_of_mem _ _ hk') with ⟨v, hv⟩
          rw [hv] at h2
          exact Option.noConfusion h2
        constructor <;> dsimp only <;> omega
      · have hsplit : (st.drainResult).1 - st.expected_seq =
            ((st.drainResult).1 - (st.expected_seq + 1)) + 1 := by omega
        dsimp only
        rw [List.map_cons, h3, hsplit, List.range'_succ]
        simp
    · by_cases hwin : st.expected_seq < s ∧
          s < st.expected_seq + st.window_size
      · by_cases hbuf : alistLookup st.buffer s = none
        · rw [addPacketImpl_buffered st s t d hdup hexp hwin hbuf]
          refine ⟨⟨hrec, ?_, ?_⟩, rfl, le_refl _, by simp⟩
          · simp only [List.map_append, List.map_cons, List.map_nil]
            rw [List.nodup_append]
            refine ⟨hnd, List.nodup_singleton s, ?_⟩
            intro k hk
            simp only [List.mem_singleton]
            rintro rfl
            rcases Option.isSome_iff_exists.mp
              (alistLookup_isSome_of_mem _ _ hk) with ⟨v, hv⟩
            rw [hv] at hbuf
            exact Option.noConfusion hbuf
          · intro k hk
            simp only [List.map_append, List.map_cons, List.map_nil,
              List.mem_append, List.mem_singleton] at hk
            rcases hk with hk | rfl
            · exact hkeys k hk
            · exact hwin
        · rw [addPacketImpl_buffered_again st s t d hdup hexp hwin hbuf]
          exact ⟨⟨hrec, hnd, hkeys⟩, rfl, le_refl _, by simp⟩
      · rw [addPacketImpl_drop st s t d hdup hexp hwin]
        exact ⟨⟨hrec, hnd, hkeys⟩, rfl, le_refl _, by simp⟩

/-- Run-level invariant: any sequence of `add_packet` calls preserves the
invariant and delivers exactly the contiguous range of sequence numbers the
expected counter moves across. -/
theorem runFull_spec (ops : List (Nat × Nat × List Nat)) :
    ∀ st : ReceiveWindow, Inv st →
    Inv (runFull st ops).1 ∧
    (runFull st ops).1.window_size = st.window_size ∧
    st.expected_seq ≤ (runFull st ops).1.expected_seq ∧
    (runFull st ops).2 = List.range' st.expected_seq
      ((runFull st ops).1.expected_seq - st.expected_seq) := by
  induction ops with
  | nil =>
    intro st h
    exact ⟨h, rfl, le_refl _, by simp [runFull]⟩
  | cons op ops ih =>
    intro st h
    obtain ⟨s, t, d⟩ := op
    obtain ⟨hInv, hw, hle, htr⟩ := addPacketImpl_inv st s t d h
    obtain ⟨hInv2, hw2, hle2, htr2⟩ := ih (st.addPacketImpl s t d).1 hInv
    simp only [runFull]
    refine ⟨hInv2, by rw [hw2, hw], by omega, ?_⟩
    rw [htr, htr2]
    rw [show (runFull (st.addPacketImpl s t d).1 ops).1.expected_seq -
        st.expected_seq =
        ((runFull (st.addPacketImpl s t d).1 ops).1.expected_seq -
          (st.addPacketImpl s t d).1.expected_seq) +
          ((st.addPacketImpl s t d).1.expected_seq - st.expected_seq) from
      by omega]
    rw [← List.range'_append_1]
    rw [show st.expected_seq +
        ((st.addPacketImpl s t d).1.expected_seq - st.expected_seq) =
        (st.addPacketImpl s t d).1.expected_seq from by omega]

/-- c1: starting from a fresh `ReceiveWindow`, after any sequence of
`add_packet` calls the delivered sequence numbers are, in delivery order,
exactly `0, 1, …, expected_seq - 1` — each sequence number is delivered at
most once and the order is strictly increasing — and a further `add_packet`
with an already-delivered sequence number returns `(False, None)` and leaves
the state unchanged. -/
theorem receive_window_exactly_once_in_order (w : Nat)
    (ops : List (Nat × Nat × List Nat)) :
    (runFull (init w) ops).2 =
      List.range ((runFull (init w) ops).1.expected_seq) ∧
    ((runFull (init w) ops).2).Pairwise (· < ·) ∧
    (∀ s t d, s ∈ (runFull (init w) ops).2 →
      ReceiveWindow.add_packet (runFull (init w) ops).1 s t d =
        ((runFull (init w) ops).1, false, PacketResult.nothing)) := by
  obtain ⟨hInv, hw, hle, htr⟩ := runFull_spec ops (init w) (inv_init w)
  have hrange : (runFull (init w) ops).2 =
      List.range ((runFull (init w) ops).1.expected_seq) := by
    rw [htr]
    simp only [init]
    rw [List.range_eq_range']
    simp
  refine ⟨hrange, ?_, ?_⟩
  · rw [hrange]
    exact List.pairwise_lt_range _
  · intro s t d hs
    rw [hrange] at hs
    have hlt : s < (runFull (init w) ops).1.expected_seq :=
      List.mem_range.mp hs
    have hmem : s ∈ (runFull (init w) ops).1.received_packets :=
      (hInv.1 s).mpr hlt
    unfold ReceiveWindow.add_packet
    rw [addPacketImpl_dup _ s t d hmem]

/-- Witness for c1: a run that delivers packets 0 and 1 (1 arrived early and
was drained from the buffer), followed by a duplicate of 0. -/
theorem receive_window_exactly_once_in_order_witness :
    (0 : Nat) ∈ (runFull (init 4) [(1, 3, [5]), (0, 3, [9])]).2 ∧
    ReceiveWindow.add_packet (runFull (init 4) [(1, 3, [5]), (0, 3, [9])]).1
        0 3 [7] =
      ((runFull (init 4) [(1, 3, [5]), (0, 3, [9])]).1, false,
        PacketResult.nothing) :=
  ⟨by decide,
    (receive_window_exactly_once_in_order 4 [(1, 3, [5]), (0, 3, [9])]).2.2
      0 3 [7] (by decide)⟩

/-- c9: (a) for every `ReceiveWindow` state with a positive window size, an
`add_packet` whose sequence number is at or beyond
`expected_seq + window_size` returns `(False, None)` and changes no state;
(b) consequently, in every state reachable from a fresh window every key of
the out-of-order buffer lies strictly between `expected_seq` and
`expected_seq + window_size`. -/
theorem receive_window_drops_beyond_capacity (w : Nat) (hw : 0 < w)
    (ops : List (Nat × Nat × List Nat)) :
    (∀ st : ReceiveWindow, 0 < st.window_size → ∀ s t d,
      st.expected_seq + st.window_size ≤ s →
      st.add_packet s t d = (st, false, PacketResult.nothing)) ∧
    (∀ k, k ∈ ((runFull (init w) ops).1).buffer.map Prod.fst →
      (runFull (init w) ops).1.expected_seq < k ∧
        k < (runFull (init w) ops).1.expected_seq +
          (runFull (init w) ops).1.window_size) := by
  constructor
  · intro st hpos s t d hs
    unfold ReceiveWindow.add_packet
    by_cases hdup : s ∈ st.received_packets
    · rw [addPacketImpl_dup st s t d hdup]
    · rw [addPacketImpl_drop st s t d hdup (by omega) (by omega)]
  · intro k hk
    obtain ⟨hInv, hw', hle, htr⟩ := runFull_spec ops (init w) (inv_init w)
    exact hInv.2.2 k hk

/-- Witness for c9: in the state reached by buffering packet 2 in a window
of size 3, a packet at `expected_seq + window_size = 3` is dropped with no
state change, and the buffered key 2 is within bounds. -/
theorem receive_window_drops_beyond_capacity_witness :
    (runFull (init 3) [(2, 9, [8])]).1.add_packet 3 9 [6] =
      ((runFull (init 3) [(2, 9, [8])]).1, false, PacketResult.nothing) ∧
    (2 : Nat) ∈ ((runFull (init 3) [(2, 9, [8])]).1).buffer.map Prod.fst ∧
    (runFull (init 3) [(2, 9, [8])]).1.expected_seq < 2 ∧
    (2 : Nat) < (runFull (init 3) [(2, 9, [8])]).1.expected_seq +
      (runFull (init 3) [(2, 9, [8])]).1.window_size := by
  have h := receive_window_drops_beyond_capacity 3 (by decide) [(2, 9, [8])]
  refine ⟨h.1 (runFull (init 3) [(2, 9, [8])]).1 (by decide) 3 9 [6]
    (by decide), by decide, ?_⟩
  exact h.2 2 (by decide)

end ReceiveWindow

/-! ### SlidingWindow (send side) — src/lab04/sliding_window.py -/

/-- Replace-or-append binding (`d[key] = value`). -/
def alistSet {α : Type} : List (Nat × α) → Nat → α → List (Nat × α)
  | [], k, v => [(k, v)]
  | (k1, v1) :: rest, k, v =>
    if k1 = k then (k, v) :: rest else (k1, v1) :: alistSet rest k v

/-- One entry of `SlidingWindow.packets`:
`{'packet': …, 'time': …, 'resends': …, 'callback': …}`.  The callback is
modelled by whether one is present; invocations are returned as events. -/
structure SWEntry where
  packet : List Nat
  time : Nat
  resends : Nat
  hasCallback : Bool
deriving DecidableEq, Repr

/-- State of `SlidingWindow`: configured size and timeout, `base` (first
unacknowledged), `next_seq` (next to send), unacknowledged packets, closed
flag.  The `timers` dict is omitted: `_start_timer`/`_stop_timer` are no-ops
in the source. -/
structure SlidingWindow where
  window_size : Nat
  timeout : Nat
  base : Nat
  next_seq : Nat
  packets : List (Nat × SWEntry)
  closed : Bool
deriving DecidableEq, Repr

namespace SlidingWindow

/-- `SlidingWindow.__init__(window_size, timeout)`. -/
def init (window_size timeout : Nat) : SlidingWindow :=
  { window_size := window_size, timeout := timeout, base := 0, next_seq := 0,
    packets := [], closed := false }

/-- `can_send`: `self.next_seq < self.base + self.window_size`. -/
def can_send (sw : SlidingWindow) : Bool :=
  sw.next_seq < sw.base + sw.window_size

/-- `add_packet(seq_num, packet, callback)` at wall-clock `now`: stores the
entry with a zero resend counter.  No other field changes — in particular
`next_seq` is not advanced. -/
def add_packet (sw : SlidingWindow) (seq_num : Nat) (packet : List Nat)
    (now : Nat) (hasCb : Bool) : SlidingWindow :=
  { sw with packets := alistSet sw.packets seq_num ⟨packet, now, 0, hasCb⟩ }

/-- The loop `while self.base in self.packets: self.base += 1`.  The fuel
(`packets.length + 1`) bounds the iterations: each hit consumes a distinct
key of the finite dict. -/
def advanceBase (packets : List (Nat × SWEntry)) : Nat → Nat → Nat
  | b, 0 => b
  | b, fuel + 1 =>
    if (alistLookup packets b).isSome then advanceBase packets (b + 1) fuel
    else b

/-- `ack_received(seq_num)`: on a hit, emits the success callback, removes
the entry, and advances the base past the acknowledged number and any
further numbers still present in the dict.  Returns the new state, the
boolean result, and the callback invocations `(seq, success)`. -/
def ack_received (sw : SlidingWindow) (seq_num : Nat) :
    SlidingWindow × Bool × List (Nat × Bool) :=
  match alistLookup sw.packets seq_num with
  | some e =>
    let cbs := if e.hasCallback then [(seq_num, true)] else []
    let ps := alistErase sw.packets seq_num
    let b := if sw.base ≤ seq_num then
        advanceBase ps (seq_num + 1) (ps.length + 1)
      else sw.base
    ({ sw with packets := ps, base := b }, true, cbs)
  | none => (sw, false, [])

/-- Body of the `for seq_num, info in list(self.packets.items())` loop of
`get_resend_packets`: timed-out entries at the resend ceiling are removed
with a failure callback; timed-out entries below it get their counter
bumped, their time reset and are queued for retransmission. -/
def resendPass (timeout now : Nat) :
    List (Nat × SWEntry) →
      List (Nat × SWEntry) × List (Nat × List Nat) × List (Nat × Bool)
  | [] => ([], [], [])
  | (seq, info) :: rest =>
    let r := resendPass timeout now rest
    if now - info.time > timeout then
      if MAX_RESENDS ≤ info.resends then
        (r.1, r.2.1, (if info.hasCallback then [(seq, false)] else []) ++ r.2.2)
      else
        ((seq, { info with resends := info.resends + 1, time := now }) :: r.1,
          (seq, info.packet) :: r.2.1, r.2.2)
    else ((seq, info) :: r.1, r.2.1, r.2.2)

/-- `get_resend_packets()` at wall-clock `now`: the new state, the list of
`(seq, packet)` pairs to retransmit, and the callback invocations. -/
def get_resend_packets (sw : SlidingWindow) (now : Nat) :
    SlidingWindow × List (Nat × List Nat) × List (Nat × Bool) :=
  let r := resendPass sw.timeout now sw.packets
  ({ sw with packets := r.1 }, r.2.1, r.2.2)

end SlidingWindow

/-- c2: the send-window bound fails on the code.  With `window_size = 1`,
`can_send()` is true before each of two `add_packet` calls (no operation
ever advances `next_seq`, so `can_send` never becomes false), yet after the
second call the window holds 2 > 1 unacknowledged entries. -/
theorem send_window_exceeds_capacity :
    (SlidingWindow.init 1 5).can_send = true ∧
    ((SlidingWindow.init 1 5).add_packet 0 [1] 0 false).can_send = true ∧
    (((SlidingWindow.init 1 5).add_packet 0 [1] 0 false).add_packet 1 [2] 0
        false).packets.length = 2 ∧
    (((SlidingWindow.init 1 5).add_packet 0 [1] 0 false).add_packet 1 [2] 0
        false).window_size = 1 := by
  refine ⟨rfl, rfl, rfl, rfl⟩

/-! ### Fast-send retransmit loop — src/lab04/client.py, `_send_file_fast` -/

/-- One entry of the ad-hoc `window` dict of `_send_file_fast`:
`{'packet': …, 'time': …, 'resends': …}`. -/
structure ClientEntry where
  packet : List Nat
  time : Nat
  resends : Nat
deriving DecidableEq, Repr

/-- The retransmission sweep of `_send_file_fast` (the
`for seq, info in list(window.items())` loop): a timed-out entry with fewer
than 3 resends is retransmitted with its counter bumped and its time reset;
any other entry — including a timed-out one already at 3 resends — is left
untouched, and nothing is ever removed from the window or reported failed. -/
def clientResendPass (packetTimeout now : Nat) :
    List (Nat × ClientEntry) → List (Nat × ClientEntry) × List (List Nat)
  | [] => ([], [])
  | (seq, info) :: rest =>
    let r := clientResendPass packetTimeout now rest
    if now - info.time > packetTimeout then
      if info.resends < 3 then
        ((seq, { info with time := now, resends := info.resends + 1 }) :: r.1,
          info.packet :: r.2)
      else ((seq, info) :: r.1, r.2)
    else ((seq, info) :: r.1, r.2)

/-- c4: the retry ceiling does not fail the transfer in the client's fast
path.  A window entry that has reached 3 resends is left in the window
unchanged by every later retransmission sweep — it is neither removed, nor
retransmitted, nor reported as failed, so the send loop (whose guard is
`base_seq < next_seq`) can spin forever without progress.  By contrast the
`SlidingWindow` class removes a timed-out entry at `MAX_RESENDS` and fires
its failure callback. -/
theorem client_fast_send_retry_ceiling_no_failure :
    (∀ now : Nat, clientResendPass 1 now
        [(1000, { packet := [1], time := 0, resends := 3 })] =
      ([(1000, { packet := [1], time := 0, resends := 3 })], [])) ∧
    SlidingWindow.get_resend_packets
        { window_size := 10, timeout := 1, base := 1000, next_seq := 1001,
          packets := [(1000,
            { packet := [1], time := 0, resends := 5, hasCallback := true })],
          closed := false } 10 =
      ({ window_size := 10, timeout := 1, base := 1000, next_seq := 1001,
          packets := [], closed := false }, [], [(1000, false)]) := by
  constructor
  · intro now
    unfold clientResendPass clientResendPass
    by_cases h : now - 0 > 1 <;> simp [h]
  · rfl

/-! ### TCP download with resume — src/lab02/server.py `_handle_download`
and src/lab04/client.py `download_file` -/

/-- The server send loop of `_handle_download`: after `f.seek(offset)`,
repeatedly `f.read(min(BUFFER_SIZE, remaining))` and send, stopping when
`remaining` hits zero or a read returns nothing.  Returns the concatenation
of all bytes sent. -/
def sendLoop (src : List Nat) (pos remaining : Nat) : List Nat :=
  if h0 : remaining = 0 then []
  else
    if h : (src.drop pos).take (min BUFFER_SIZE remaining) = [] then []
    else
      (src.drop pos).take (min BUFFER_SIZE remaining) ++
        sendLoop src
          (pos + ((src.drop pos).take (min BUFFER_SIZE remaining)).length)
          (remaining - ((src.drop pos).take (min BUFFER_SIZE remaining)).length)
termination_by remaining
decreasing_by
  have hz : ((src.drop pos).take (min BUFFER_SIZE remaining)).length ≠ 0 :=
    fun hzz => h (List.eq_nil_of_length_eq_zero hzz)
  omega

/-- `_handle_download` data phase: `filesize = get_file_size(filepath)`
(the length of the source bytes), seek to the negotiated offset, send
`filesize - offset` bytes from there. -/
def serverDownloadSend (src : List Nat) (offset : Nat) : List Nat :=
  sendLoop src offset (src.length - offset)

theorem sendLoop_eq (remaining : Nat) :
    ∀ src pos, sendLoop src pos remaining = (src.drop pos).take remaining := by
  induction remaining using Nat.strong_induction_on with
  | _ remaining ih =>
    intro src pos
    by_cases h0 : remaining = 0
    · subst h0
      unfold sendLoop
      simp
    · unfold sendLoop
      rw [dif_neg h0]
      set l := src.drop pos with hl
      by_cases h : l.take (min BUFFER_SIZE remaining) = []
      · rw [dif_pos h]
        rcases List.take_eq_nil_iff.mp h with h1 | h1
        · exact absurd h1 (by simp [BUFFER_SIZE]; omega)
        · rw [h1]
          simp
      · rw [dif_neg h]
        have hlen : (l.take (min BUFFER_SIZE remaining)).length =
            min (min BUFFER_SIZE remaining) l.length := List.length_take _ _
        have hrec := ih (remaining - (l.take (min BUFFER_SIZE remaining)).length)
          (by
            have : (l.take (min BUFFER_SIZE remaining)).length ≠ 0 :=
              fun hz => h (List.eq_nil_of_length_eq_zero hz)
            omega)
          src (pos + (l.take (min BUFFER_SIZE remaining)).length)
        rw [hrec]
        rw [show src.drop (pos + (l.take (min BUFFER_SIZE remaining)).length) =
          l.drop (l.take (min BUFFER_SIZE remaining)).length from by
            rw [hl, List.drop_drop, Nat.add_comm]]
        by_cases hc : l.length ≤ min BUFFER_SIZE remaining
        · have hdata : l.take (min BUFFER_SIZE remaining) = l :=
            List.take_of_length_le hc
          rw [hdata]
          have : l.drop l.length = [] := by simp
          rw [this]
          have : l.take remaining = l :=
            List.take_of_length_le (by omega)
          simp [this]
        · have hlen2 : (l.take (min BUFFER_SIZE remaining)).length =
              min BUFFER_SIZE remaining := by omega
          rw [hlen2]
          have hsplit : remaining =
              min BUFFER_SIZE remaining +
                (remaining - min BUFFER_SIZE remaining) := by omega
          conv_rhs => rw [hsplit]
          rw [List.take_add]

/-- The TCP download receive loop of `download_file`: starting at
`received = offset`, repeatedly `recv_exact(min(BUFFER_SIZE * 4,
filesize - received))` and append to the file; `recv_exact` delivers exactly
the requested bytes from the stream or raises (`none`) when the stream is
exhausted. -/
def clientRecvLoop (stream : List Nat) (received filesize : Nat) :
    Option (List Nat) :=
  if h0 : filesize ≤ received then some []
  else
    let chunk_size := min (BUFFER_SIZE * 4) (filesize - received)
    if h : chunk_size ≤ stream.length then
      (clientRecvLoop (stream.drop chunk_size) (received + chunk_size)
          filesize).map
        (fun restBytes => stream.take chunk_size ++ restBytes)
    else none
termination_by filesize - received
decreasing_by
  simp only [BUFFER_SIZE] at *
  omega

theorem clientRecvLoop_exact (n : Nat) :
    ∀ stream received filesize, filesize - received = n →
    stream.length = filesize - received →
    clientRecvLoop stream received filesize = some stream := by
  induction n using Nat.strong_induction_on with
  | _ n ih =>
    intro stream received filesize hn hlen
    by_cases h0 : filesize ≤ received
    · unfold clientRecvLoop
      rw [dif_pos h0]
      have : stream = [] := List.eq_nil_of_length_eq_zero (by omega)
      rw [this]
    · unfold clientRecvLoop
      rw [dif_neg h0]
      have hchunk : min (BUFFER_SIZE * 4) (filesize - received) ≤
          stream.length := by
        simp only [BUFFER_SIZE]
        omega
      rw [dif_pos hchunk]
      have hrec := ih (filesize - (received +
          min (BUFFER_SIZE * 4) (filesize - received)))
        (by simp only [BUFFER_SIZE] at *; omega)
        (stream.drop (min (BUFFER_SIZE * 4) (filesize - received)))
        (received + min (BUFFER_SIZE * 4) (filesize - received)) filesize rfl
        (by
          rw [List.length_drop]
          simp only [BUFFER_SIZE] at *
          omega)
      rw [hrec]
      simp

/-- Resume negotiation of `download_file` (lab04 and, identically, lab01)
after `FILESIZE` is received, as a function of the reported file size and
the size of the existing local file (`none` when the file does not exist).
The result is the offset line sent to the server: `none` means the function
returns with no transfer started ("file already fully downloaded");
`some (some o)` means the line `o` is sent; `some none` means the transfer
proceeds but no offset line is sent at all. -/
def resumeOffsetLine (filesize : Nat) (existing : Option Nat) :
    Option (Option Nat) :=
  match existing with
  | some ex =>
    if ex < filesize then some (some ex)
    else if ex = filesize then none
    else some none
  | none => some (some 0)

/-- The local variable `offset` of `download_file` after the negotiation:
set to the existing size only when it is smaller than the reported size. -/
def resumeOffset (filesize : Nat) (existing : Option Nat) : Nat :=
  match existing with
  | some ex => if ex < filesize then ex else 0
  | none => 0

/-- Final content of the destination file: mode `ab` (append to the
existing bytes) when `offset > 0`, mode `wb` (truncate) otherwise. -/
def clientFinalFile (existingBytes : List Nat) (offset : Nat)
    (receivedBytes : List Nat) : List Nat :=
  if offset > 0 then existingBytes ++ receivedBytes else receivedBytes

/-- c5: resume correctness.  For a source of `total = src.length` bytes and
a reported existing size `p`: when `p < total` the client sends the offset
line `p`, the server seeks to `p` and transmits exactly `src.drop p`, the
client receive loop consumes exactly those bytes, and appending them to the
correct existing prefix reproduces `src`; when `p = total` the negotiation
ends with no transfer started. -/
theorem download_resume_correct (src : List Nat) (p : Nat) :
    (p < src.length →
      resumeOffsetLine src.length (some p) = some (some p) ∧
      resumeOffset src.length (some p) = p ∧
      serverDownloadSend src p = src.drop p ∧
      clientRecvLoop (serverDownloadSend src p) p src.length =
        some (src.drop p) ∧
      clientFinalFile (src.take p) p (src.drop p) = src) ∧
    (p = src.length → resumeOffsetLine src.length (some p) = none) := by
  constructor
  · intro hp
    have hsend : serverDownloadSend src p = src.drop p := by
      unfold serverDownloadSend
      rw [sendLoop_eq]
      exact List.take_of_length_le (by rw [List.length_drop])
    refine ⟨by simp [resumeOffsetLine, hp], by simp [resumeOffset, hp],
      hsend, ?_, ?_⟩
    · rw [hsend]
      exact clientRecvLoop_exact (src.length - p) (src.drop p) p src.length
        rfl (by rw [List.length_drop])
    · unfold clientFinalFile
      by_cases hp0 : p > 0
      · rw [if_pos hp0]
        exact List.take_append_drop p src
      · rw [if_neg hp0]
        have : p = 0 := by omega
        rw [this]
        rfl
  · intro hp
    simp [resumeOffsetLine, hp]

/-- Witness for c5: a 3-byte source with existing size 1 resumes at offset
1 and reconstructs the source; existing size 3 starts no transfer. -/
theorem download_resume_correct_witness :
    (resumeOffsetLine 3 (some 1) = some (some 1) ∧
      resumeOffset 3 (some 1) = 1 ∧
      serverDownloadSend [10, 11, 12] 1 = [11, 12] ∧
      clientRecvLoop (serverDownloadSend [10, 11, 12] 1) 1 3 =
        some [11, 12] ∧
      clientFinalFile [10] 1 [11, 12] = [10, 11, 12]) ∧
    resumeOffsetLine 3 (some 3) = none := by
  constructor
  · have h := (download_resume_correct [10, 11, 12] 1).1 (by decide)
    exact h
  · exact (download_resume_correct [10, 11, 12] 3).2 (by decide)

/-- c8: when the existing local file is larger than the reported source
size, `download_file` sends no resume-offset line at all — neither branch
of the negotiation fires — although it will later open the destination in
truncating `wb` mode (`offset = 0`).  The claim that it sends `0` is false:
with reported size 1 and existing size 2 the outcome is `some none`
(proceed, nothing sent), not `some (some 0)`. -/
theorem oversized_existing_sends_no_offset :
    resumeOffsetLine 1 (some 2) = some none ∧
    resumeOffset 1 (some 2) = 0 ∧
    resumeOffsetLine 1 (some 2) ≠ some (some 0) := by
  refine ⟨rfl, rfl, by decide⟩

/-! ### TCP greeting — src/lab02/server.py `handle_client` (lines 33–42) -/

/-- First-line handling of `handle_client`: the client id defaults to the
peer address, is overwritten by the payload of a `CLIENT ` line, and the
reply is unconditionally `OK` — no registry of active identifiers is
consulted and no duplicate check exists.  Returns `(client_id, reply)`. -/
def serverGreeting (clientAddr firstLine : List Char) :
    List Char × List Char :=
  (if firstLine.take 7 = ['C', 'L', 'I', 'E', 'N', 'T', ' '] then
      firstLine.drop 7
    else clientAddr, ['O', 'K'])

/-- c6 counterexample: two different sessions both registering as `alice`
each receive `OK`; the second is not answered with `ERROR: ID already
taken`, and its connection is not closed in response to the duplicate. -/
theorem duplicate_client_id_accepted :
    (serverGreeting ['1', ':', '1']
        ['C', 'L', 'I', 'E', 'N', 'T', ' ', 'a', 'l', 'i', 'c', 'e']).2 =
      ['O', 'K'] ∧
    (serverGreeting ['2', ':', '2']
        ['C', 'L', 'I', 'E', 'N', 'T', ' ', 'a', 'l', 'i', 'c', 'e']).2 =
      ['O', 'K'] ∧
    (serverGreeting ['2', ':', '2']
        ['C', 'L', 'I', 'E', 'N', 'T', ' ', 'a', 'l', 'i', 'c', 'e']).2 ≠
      ['E', 'R', 'R', 'O', 'R', ':', ' ', 'I', 'D', ' ', 'a', 'l', 'r',
        'e', 'a', 'd', 'y', ' ', 't', 'a', 'k', 'e', 'n'] := by
  refine ⟨rfl, rfl, by decide⟩

/-- c6 (amended): the server replies `OK` to every session's first line,
whatever identifier it claims and regardless of identifiers in use by other
sessions — duplicate client ids are never detected or rejected. -/
theorem server_greeting_always_ok (clientAddr firstLine : List Char) :
    (serverGreeting clientAddr firstLine).2 = ['O', 'K'] := rfl

end FileTransfer
